import Mathlib

/-!
Shallow embedding of the fuzzy pattern-matcher callback
(`opencog/query/FuzzyMatch/FuzzyPatternMatchCB.cc`) and the scope model
(`opencog/atoms/core/ScopeLink.cc`) of the atomspace repository, together
with proofs of the specification claims about them.

Atoms are modelled as a mutual inductive of nodes and links.  Every atom
carries a `uuid`: handles in the source are opaque identifiers whose
equality and ordering are by identity (`Handle::value()`), so handle
comparisons are modelled as `uuid` comparisons.  Atom types are modelled
as plain naturals; the handful of type constants the two source files
inspect are fixed distinct naturals below.
-/

mutual

inductive Atom where
  | node (uuid : Nat) (ty : Nat) (name : String)
  | link (uuid : Nat) (ty : Nat) (out : AtomList)

inductive AtomList where
  | anil
  | acons (head : Atom) (tail : AtomList)

end

def Atom.uuid : Atom → Nat
  | .node u _ _ => u
  | .link u _ _ => u

def Atom.atype : Atom → Nat
  | .node _ t _ => t
  | .link _ t _ => t

def AtomList.alen : AtomList → Nat
  | .anil => 0
  | .acons _ t => 1 + t.alen

def AtomList.aget : AtomList → Nat → Option Atom
  | .anil, _ => none
  | .acons h _, 0 => some h
  | .acons _ t, n + 1 => t.aget n

/-- Atom type constants; the source only ever compares types for equality
(plus one `isA` hierarchy query modelled below), so distinct naturals
suffice. -/
def VARIABLE_NODE : Nat := 1

def GLOB_NODE : Nat := 2

def VARIABLE_LIST : Nat := 3

def TYPED_VARIABLE_LINK : Nat := 4

def QUOTE_LINK : Nat := 5

def SCOPE_LINK : Nat := 6

def LAMBDA_LINK : Nat := 7

def CONCEPT_NODE : Nat := 8

def LIST_LINK : Nat := 9

def EVALUATION_LINK : Nat := 10

def PREDICATE_NODE : Nat := 11

/-!
Leaf collection.  `check_if_accept` calls `get_all_nodes` (declared in
`opencog/atomutils/AtomUtils.h`, not part of the sources here).
Modelled from the spec: "Collect the full set of leaf atoms reachable
from each side" — the set (no duplicates) of leaf nodes reachable from
an atom, which `check_if_accept` then sorts; we keep it as a sorted
duplicate-free list of leaf uuids.
-/

mutual

def leavesA : Atom → List Nat
  | .node u _ _ => [u]
  | .link _ _ out => leavesL out

def leavesL : AtomList → List Nat
  | .anil => []
  | .acons h t => leavesA h ++ leavesL t

end

/-- Insert a uuid into a strictly sorted list, keeping it strictly sorted. -/
def insertSorted (u : Nat) : List Nat → List Nat
  | [] => [u]
  | v :: rest =>
    if u < v then u :: v :: rest
    else if u = v then v :: rest
    else v :: insertSorted u rest

def sortedDedup (l : List Nat) : List Nat := l.foldr insertSorted []

/-- Modelled from the spec: `get_all_nodes` (missing `AtomUtils` helper)
returns the set of leaf atoms reachable from an atom; rendered as the
sorted duplicate-free list of their uuids. -/
def get_all_nodes (a : Atom) : List Nat := sortedDedup (leavesA a)

/-!
Mathematical leaf set of an atom, used to state the similarity
formula the way the spec writes it.
-/

mutual

def leafFinsetA : Atom → Finset Nat
  | .node u _ _ => {u}
  | .link _ _ out => leafFinsetL out

def leafFinsetL : AtomList → Finset Nat
  | .anil => ∅
  | .acons h t => leafFinsetA h ∪ leafFinsetL t

end

/-!
The similarity arithmetic of `check_if_accept`:
`size_t diff = std::abs((int)(pat_size - gn.size()));`
`pat_size - gn.size()` wraps modulo 2^64 (`size_t`), the cast to `int`
truncates to 32 bits (two's complement), then `std::abs`.  The final
`similarity = (double) common - diff` is exact on this integer range, so
the score is modelled as an `Int`.
-/

def wrapSub64 (a b : Nat) : Nat := (((a : Int) - (b : Int)) % (2 ^ 64 : Int)).toNat

def toInt32 (n : Nat) : Int :=
  if n % 2 ^ 32 < 2 ^ 31 then ((n % 2 ^ 32 : Nat) : Int)
  else ((n % 2 ^ 32 : Nat) : Int) - 2 ^ 32

def sizeDiff (a b : Nat) : Nat := (toInt32 (wrapSub64 a b)).natAbs

/-- The similarity score `check_if_accept` computes for a pattern atom
and a candidate atom, given the engine's `pat_size` counter. -/
def similarityOf (pat_size : Nat) (ph gh : Atom) : Int :=
  let pn := get_all_nodes ph
  let gn := get_all_nodes gh
  ((pn.filter (fun u => gn.contains u)).length : Int) - (sizeDiff pat_size gn.length : Int)

/-- Similarity as the spec states it: shared-leaf-set cardinality minus
the absolute difference between the total pattern leaf count and the
candidate's leaf count. -/
def similaritySpec (pat_size : Nat) (ph gh : Atom) : Int :=
  ((leafFinsetA ph ∩ leafFinsetA gh).card : Int)
    - (((pat_size : Int) - ((leafFinsetA gh).card : Int)).natAbs : Int)

/-!
Per-query scoring state of the callback object: the running best score,
the solution set, and the dedup set of already-compared pairs.
Modelled from the spec for the initial values (the member initialisers
live in the missing header `FuzzyPatternMatchCB.h`): the best score
starts "unset / -∞" (`none` here), the solution set and the compared set
start empty.
-/

structure QState where
  max_similarity : Option Int
  solns : List Atom
  prev_compared : List (Nat × Nat)

def initialQState : QState := ⟨none, [], []⟩

/-- Boolean rendering of `similarity > max_similarity` against the
possibly-unset best score. -/
def simGT (x : Int) : Option Int → Bool
  | none => true
  | some m => decide (m < x)

/-- Boolean rendering of `similarity == max_similarity`. -/
def simEQ (x : Int) : Option Int → Bool
  | none => false
  | some m => decide (x = m)

/-- The reject-list scan of `check_if_accept`: true when some handle of
the reject list occurs among the candidate's leaves. -/
def rejectedBy (reject_list : List Nat) (gn : List Nat) : Bool :=
  reject_list.any (fun rh => gn.contains rh)

/-- `FuzzyPatternMatchCB::check_if_accept` (lines 231-277): reject if a
reject-list atom occurs in the candidate's leaves; otherwise score the
pair and update the best score and solution set. -/
def check_if_accept (reject_list : List Nat) (pat_size : Nat) (ph gh : Atom)
    (s : QState) : QState :=
  let gn := get_all_nodes gh
  if rejectedBy reject_list gn then s
  else
    let sim := similarityOf pat_size ph gh
    if simGT sim s.max_similarity then
      { s with max_similarity := some sim, solns := [gh] }
    else if simEQ sim s.max_similarity then
      { s with solns := s.solns ++ [gh] }
    else s

/-- `FuzzyPatternMatchCB::clause_match` (lines 208-220): skip pairs
already compared, otherwise score via `check_if_accept` and record the
pair; always returns true. -/
def clause_match (reject_list : List Nat) (pat_size : Nat) (ph gh : Atom)
    (s : QState) : Bool × QState :=
  let p := (ph.uuid, gh.uuid)
  if s.prev_compared.contains p then (true, s)
  else
    let s1 := check_if_accept reject_list pat_size ph gh s
    (true, { s1 with prev_compared := s1.prev_compared ++ [p] })

/-!
Starter discovery (`FuzzyPatternMatchCB::find_starters`, lines 47-91).
A `Starter` records the candidate entry-point node, its enclosing term,
clause index, incoming-set width and depth.  The incoming-set width is a
query against the external atomspace store, modelled as a function
`width : Nat → Nat` from uuids.  The traversal state carries the
`pat_size` and `var_size` counters and the accumulated starter list.
-/

structure Starter where
  suuid : Nat
  handle : Atom
  sterm : Option Atom
  clause_idx : Nat
  width : Nat
  depth : Nat

structure FSState where
  pat_size : Nat
  var_size : Nat
  rtn : List Starter

/-- Leaf handling of `find_starters`: count the node; record it as a
starter when it is neither a variable nor an instance node (name
containing "@"); count variables separately. -/
def leafStep (width : Nat → Nat) (u ty : Nat) (nm : String) (depth clause_idx : Nat)
    (sterm : Option Atom) (s : FSState) : FSState :=
  let s1 : FSState := { s with pat_size := s.pat_size + 1 }
  if ty ≠ VARIABLE_NODE ∧ ¬ (nm.data.contains '@') then
    { s1 with rtn := s1.rtn ++ [⟨u, .node u ty nm, sterm, clause_idx, width u, depth⟩] }
  else if ty = VARIABLE_NODE then
    { s1 with var_size := s1.var_size + 1 }
  else s1

mutual

/-- `find_starters` on one pattern atom.  A link recurses into its
outgoing set with `depth + 1` and itself as the enclosing term; a node
runs the leaf logic. -/
def find_starters (width : Nat → Nat) : Atom → Nat → Nat → Option Atom → FSState → FSState
  | .node u ty nm, depth, ci, sterm, s => leafStep width u ty nm depth ci sterm s
  | .link u ty out, depth, ci, _, s => fsChildren width out (depth + 1) ci (.link u ty out) s

/-- The loop over a link's outgoing set. -/
def fsChildren (width : Nat → Nat) : AtomList → Nat → Nat → Atom → FSState → FSState
  | .anil, _, _, _, s => s
  | .acons h rest, depth, ci, parent, s =>
    fsChildren width rest depth ci parent (fsChild width h depth ci parent s)

/-- One child of the outgoing loop: "blow past the QuoteLinks" — a
QuoteLink child is replaced by its first outgoing atom before recursing
(the source indexes `getOutgoingAtom(0)`, defined only for non-empty
quotes; an empty quote link is traversed as an ordinary link, which is a
no-op).  The enclosing term stays the quote's parent either way. -/
def fsChild (width : Nat → Nat) : Atom → Nat → Nat → Atom → FSState → FSState
  | .node u ty nm, depth, ci, parent, s => leafStep width u ty nm depth ci (some parent) s
  | .link u ty (.acons c cs), depth, ci, parent, s =>
    if ty = QUOTE_LINK then find_starters width c depth ci (some parent) s
    else fsChildren width (.acons c cs) (depth + 1) ci (.link u ty (.acons c cs)) s
  | .link _ _ .anil, _, _, _, s => s

end

/-!
Counter mirrors of the same traversal: `nodeCount*` counts every leaf
node reached (the `pat_size` increments), `varCount*` counts the
variable leaves reached (the `var_size` increments).
-/

mutual

def nodeCountA : Atom → Nat
  | .node _ _ _ => 1
  | .link _ _ out => nodeCountL out

def nodeCountL : AtomList → Nat
  | .anil => 0
  | .acons h rest => nodeCountQ h + nodeCountL rest

def nodeCountQ : Atom → Nat
  | .node _ _ _ => 1
  | .link _ ty (.acons c cs) =>
    if ty = QUOTE_LINK then nodeCountA c else nodeCountL (.acons c cs)
  | .link _ _ .anil => 0

end

mutual

def varCountA : Atom → Nat
  | .node _ ty _ => if ty = VARIABLE_NODE then 1 else 0
  | .link _ _ out => varCountL out

def varCountL : AtomList → Nat
  | .anil => 0
  | .acons h rest => varCountQ h + varCountL rest

def varCountQ : Atom → Nat
  | .node _ ty _ => if ty = VARIABLE_NODE then 1 else 0
  | .link _ ty (.acons c cs) =>
    if ty = QUOTE_LINK then varCountA c else varCountL (.acons c cs)
  | .link _ _ .anil => 0

end

/-!
Starter ranking (`initiate_search`, lines 119-144): sort by uuid, drop
adjacent duplicates (`std::unique` keeps the first of each run), then
sort by width ascending with ties broken by descending depth.
`std::sort` guarantees only a sorted permutation; it is modelled by
insertion sort over the non-strict counterpart of each comparator.
-/

def uuidLe (s1 s2 : Starter) : Prop := s1.suuid ≤ s2.suuid

instance : DecidableRel uuidLe := fun s1 s2 => Nat.decLe s1.suuid s2.suuid

instance : IsTotal Starter uuidLe := ⟨fun s1 s2 => Nat.le_total s1.suuid s2.suuid⟩

instance : IsTrans Starter uuidLe := ⟨fun _ _ _ h1 h2 => Nat.le_trans h1 h2⟩

/-- Non-strict counterpart of the `sort_by_wd` comparator: `s1` may
precede `s2` iff the comparator does not order `s2` strictly before
`s1`. -/
def wdLe (s1 s2 : Starter) : Prop :=
  s1.width < s2.width ∨ (s1.width = s2.width ∧ s2.depth ≤ s1.depth)

instance : DecidableRel wdLe := fun _ _ =>
  inferInstanceAs (Decidable (_ ∨ _))

instance : IsTotal Starter wdLe := ⟨fun s1 s2 => by
  unfold wdLe; omega⟩

instance : IsTrans Starter wdLe := ⟨fun s1 s2 s3 h1 h2 => by
  unfold wdLe at h1 h2 ⊢; omega⟩

/-- `std::unique` with the `check_uniqueness` predicate: drop every
element whose uuid repeats the most recently kept element's uuid. -/
def dedupFrom (s : Starter) : List Starter → List Starter
  | [] => []
  | t :: rest => if t.suuid = s.suuid then dedupFrom s rest else t :: dedupFrom t rest

def dedupAdj : List Starter → List Starter
  | [] => []
  | s :: rest => s :: dedupFrom s rest

/-- The full ranking stage of `initiate_search`: uuid-sort, adjacent
dedup, then width/depth sort. -/
def rankStarters (l : List Starter) : List Starter :=
  List.insertionSort wdLe (dedupAdj (List.insertionSort uuidLe l))

/-!
The search loop of `initiate_search` (lines 147-185): while the search
count is below the cap, stop early when the starter list is exhausted,
otherwise consume the next-ranked starter.  `searchLoopGo starters cnt b`
runs the loop from `search_cnt = cnt` with `b` iterations of budget left
(`b = MAX_SEARCHES - cnt`), returning the consumed starters in order.
The cap `MAX_SEARCHES` is a tunable constant from the missing header,
kept as a parameter.
-/

def searchLoopGo (starters : List Starter) : Nat → Nat → List Starter
  | _, 0 => []
  | cnt, b + 1 =>
    if starters.length = cnt then []
    else
      match starters[cnt]? with
      | none => []
      | some st => st :: searchLoopGo starters (cnt + 1) b

def consumedStarters (max_searches : Nat) (starters : List Starter) : List Starter :=
  searchLoopGo starters 0 max_searches

/-!
Scope model (`opencog/atoms/core/ScopeLink.cc`).

`Atom::operator==` (used by the `*h != *other_h` comparison in
`is_equal`) compares atoms by content — type, name and outgoing
structure — not by handle, so it is modelled as structural equality that
ignores uuids.
-/

mutual

def structEqA : Atom → Atom → Bool
  | .node _ t1 n1, .node _ t2 n2 => t1 = t2 ∧ n1 = n2
  | .link _ t1 o1, .link _ t2 o2 => t1 = t2 ∧ structEqL o1 o2
  | _, _ => false

def structEqL : AtomList → AtomList → Bool
  | .anil, .anil => true
  | .acons h1 t1, .acons h2 t2 => structEqA h1 h2 ∧ structEqL t1 t2
  | _, _ => false

end

/-!
The `Variables` value a scope extracts (class `Variables` of
`opencog/atoms/core/Variables.h`, not among the sources here).
Modelled from the spec: an ordered sequence of variable atoms,
optionally paired with per-position type restrictions.
-/

structure Variables where
  varseq : List Atom
  restricts : List (Option Atom)

/-- Modelled from the spec: unpacking a single declaration entry — a
typed variable contributes its variable with the type restriction, any
other atom (variable or glob node) contributes itself unrestricted. -/
def unpackOne (d : Atom) : Variables :=
  match d with
  | .link _ ty (.acons v (.acons t .anil)) =>
    if ty = TYPED_VARIABLE_LINK then ⟨[v], [some t]⟩ else ⟨[d], [none]⟩
  | _ => ⟨[d], [none]⟩

def appendVars (v1 v2 : Variables) : Variables :=
  ⟨v1.varseq ++ v2.varseq, v1.restricts ++ v2.restricts⟩

def unpackList : AtomList → Variables
  | .anil => ⟨[], []⟩
  | .acons h t => appendVars (unpackOne h) (unpackList t)

/-- Modelled from the spec: deriving the Variable List from an explicit
declaration atom — a variable-list expands to its children in order; a
single variable, typed-variable or glob forms a one-element list
(`ScopeLink::init_scoped_variables` via class `VariableList`). -/
def unpackDecl (d : Atom) : Variables :=
  match d with
  | .link _ ty out => if ty = VARIABLE_LIST then unpackList out else unpackOne d
  | _ => unpackOne d

def containsStruct (l : List Atom) (a : Atom) : Bool := l.any (fun b => structEqA a b)

/-- Recognized explicit variable-declaration types
(`ScopeLink::extract_variables`, lines 105-108). -/
def isVarDeclType (t : Nat) : Bool :=
  t = VARIABLE_LIST ∨ t = VARIABLE_NODE ∨ t = TYPED_VARIABLE_LINK ∨ t = GLOB_NODE

/-- Scope type family membership, for the nested-scope shadowing of the
free-variable search.  The type hierarchy lives in the external
`ClassServer`; only the scope kinds modelled here are members. -/
def isScopeType (t : Nat) : Bool := t = SCOPE_LINK ∨ t = LAMBDA_LINK

mutual

/-- Modelled from the spec: `find_variables` (class `FreeVariables`,
missing here) collects the free variable occurrences of a term by
recursive traversal, in first-occurrence order without duplicates; a
variable re-bound by a nested scope's explicit declaration is not
free. -/
def freeVarsA (bound acc : List Atom) : Atom → List Atom
  | .node u ty nm =>
    if (ty = VARIABLE_NODE ∨ ty = GLOB_NODE)
        ∧ ¬ (containsStruct bound (.node u ty nm) ∨ containsStruct acc (.node u ty nm)) then
      acc ++ [.node u ty nm]
    else acc
  | .link _ ty out =>
    match out with
    | .anil => acc
    | .acons d rest =>
      if isScopeType ty ∧ isVarDeclType d.atype then
        freeVarsL (bound ++ (unpackDecl d).varseq) acc rest
      else freeVarsL bound acc (.acons d rest)

def freeVarsL (bound acc : List Atom) : AtomList → List Atom
  | .anil => acc
  | .acons h t => freeVarsL bound (freeVarsA bound acc h) t

end

def find_variables (body : Atom) : Variables :=
  let vs := freeVarsA [] [] body
  ⟨vs, vs.map (fun _ => none)⟩

inductive ScopeError where
  | structureError (msg : String)

structure ScopeParts where
  vardecl : Option Atom
  varlist : Variables
  body : Atom

/-- `ScopeLink::extract_variables` (lines 93-139): empty outgoing sets
and explicit declarations without a body are structure errors; an
explicit declaration is unpacked; otherwise the first member is the
body, unwrapping one lambda level or collecting free variables. -/
def extract_variables : AtomList → Except ScopeError ScopeParts
  | .anil => .error (.structureError "Expecting a non-empty outgoing set.")
  | .acons h rest =>
    if isVarDeclType h.atype then
      match rest with
      | .anil =>
        .error (.structureError "Expecting an outgoing set size of at least two.")
      | .acons b _ => .ok ⟨some h, unpackDecl h, b⟩
    else
      match h with
      | .link u ty out =>
        if ty = LAMBDA_LINK then
          match extract_variables out with
          | .ok parts => .ok ⟨none, parts.varlist, parts.body⟩
          | .error e => .error e
        else .ok ⟨none, find_variables (.link u ty out), .link u ty out⟩
      | .node u ty nm => .ok ⟨none, find_variables (.node u ty nm), .node u ty nm⟩

/-- A constructed scope: the scope atom's identity, type and outgoing
set together with the fields `extract_variables` initialised. -/
structure Scope where
  suuid : Nat
  ty : Nat
  out : AtomList
  vardecl : Option Atom
  varlist : Variables
  body : Atom

/-- Constructing a scope link over an outgoing set
(`ScopeLink::ScopeLink` + `init`): extraction failures abort the
construction, so no scope value exists in that case. -/
def mkScope (u ty : Nat) (oset : AtomList) : Except ScopeError Scope :=
  match extract_variables oset with
  | .error e => .error e
  | .ok p => .ok ⟨u, ty, oset, p.vardecl, p.varlist, p.body⟩

/-- Modelled from the spec: `Variables::is_equal` (missing here)
compares two Variable Lists structurally — same count and same
per-position type restrictions. -/
def varsEqual (v1 v2 : Variables) : Bool :=
  v1.varseq.length = v2.varseq.length ∧
    v1.restricts.length = v2.restricts.length ∧
    (List.zip v1.restricts v2.restricts).all (fun p =>
      match p with
      | (none, none) => true
      | (some a, some b) => structEqA a b
      | _ => false)

mutual

/-- Modelled from the spec: `Variables::substitute_nocheck` (missing
here) replaces, by position, each occurrence of a variable of `oldv`
with the corresponding atom of `newv`, with no type re-check. -/
def substA (oldv newv : List Atom) : Atom → Atom
  | .node u ty nm =>
    match oldv.findIdx? (fun v => structEqA (.node u ty nm) v) with
    | some i => (newv[i]?).getD (.node u ty nm)
    | none => .node u ty nm
  | .link u ty out => .link u ty (substL oldv newv out)

def substL (oldv newv : List Atom) : AtomList → AtomList
  | .anil => .anil
  | .acons h t => .acons (substA oldv newv h) (substL oldv newv t)

end

def vardeclOffset (s : Scope) : Nat := if s.vardecl.isSome then 1 else 0

/-- The scoped-term count of `is_equal`: arity minus one when an
explicit declaration is present. -/
def nScopedTerms (s : Scope) : Nat := s.out.alen - vardeclOffset s

def getOut (l : AtomList) (i : Nat) : Atom := (l.aget i).getD (.node 0 0 "")

/-- `ScopeLink::is_equal` (lines 159-191): true on the same reference;
false on differing types, differing scoped-term counts or unequal
Variable Lists; otherwise each of the other scope's scoped terms, with
its variables replaced positionally by this scope's variables, must be
content-equal to the corresponding own term. -/
def scope_is_equal (s other : Scope) : Bool :=
  if s.suuid = other.suuid then true
  else if other.ty ≠ s.ty then false
  else
    let n1 := nScopedTerms s
    let n2 := nScopedTerms other
    if n1 ≠ n2 then false
    else if ¬ (varsEqual s.varlist other.varlist) then false
    else
      (List.range n1).all (fun i =>
        structEqA (getOut s.out (i + vardeclOffset s))
          (substA other.varlist.varseq s.varlist.varseq
            (getOut other.out (i + vardeclOffset other))))

/-- Alpha-comparison of two scope links given directly by identity, type
and outgoing set: construct both scopes and compare; false if either
construction fails. -/
def alphaEqOSets (u1 t1 : Nat) (o1 : AtomList) (u2 t2 : Nat) (o2 : AtomList) : Bool :=
  match mkScope u1 t1 o1, mkScope u2 t2 o2 with
  | .ok a, .ok b => scope_is_equal a b
  | _, _ => false

/-!
Helper lemmas.
-/

theorem check_if_accept_prev (rl : List Nat) (ps : Nat) (ph gh : Atom) (s : QState) :
    (check_if_accept rl ps ph gh s).prev_compared = s.prev_compared := by
  unfold check_if_accept
  dsimp only
  split
  · rfl
  · split
    · rfl
    · split
      · rfl
      · rfl

theorem searchLoopGo_eq_drop_take (starters : List Starter) :
    ∀ b cnt, searchLoopGo starters cnt b = (starters.drop cnt).take b := by
  intro b
  induction b with
  | zero => intro cnt; simp [searchLoopGo]
  | succ b ih =>
    intro cnt
    unfold searchLoopGo
    by_cases hlen : starters.length = cnt
    · simp [hlen, List.drop_eq_nil_of_le (Nat.le_of_eq hlen)]
    · simp only [hlen, if_false]
      match hget : starters[cnt]? with
      | none =>
        have hge : starters.length ≤ cnt := by
          by_contra hlt
          have := List.getElem?_eq_getElem (l := starters) (Nat.lt_of_not_le hlt)
          rw [hget] at this
          exact Option.noConfusion this
        simp [List.drop_eq_nil_of_le hge]
      | some st =>
        have hlt : cnt < starters.length := by
          by_contra hge
          rw [List.getElem?_eq_none (Nat.le_of_not_lt hge)] at hget
          exact Option.noConfusion hget
        have hst : starters[cnt] = st := by
          have := List.getElem?_eq_getElem (l := starters) hlt
          rw [hget] at this
          exact (Option.some.inj this).symm
        rw [List.drop_eq_getElem_cons hlt, ih (cnt + 1), List.take_succ_cons, hst]

/-- C5: `initiate_search` consumes starters strictly in ranked order, one
per iteration, performing at most `MAX_SEARCHES` iterations: the
consumed starters are exactly the first `min M N` of the ranked list,
with `M < N` consuming exactly `M` and `N ≤ M` consuming all `N`
(early exit on exhaustion). -/
theorem initiate_search_budget (M : Nat) (starters : List Starter) :
    consumedStarters M starters = starters.take M ∧
    (consumedStarters M starters).length = min M starters.length ∧
    (M < starters.length → (consumedStarters M starters).length = M) ∧
    (starters.length ≤ M → consumedStarters M starters = starters) := by
  have hbase : consumedStarters M starters = starters.take M := by
    unfold consumedStarters
    rw [searchLoopGo_eq_drop_take]
    simp
  refine ⟨hbase, ?_, ?_, ?_⟩
  · rw [hbase, List.length_take]
  · intro hlt
    rw [hbase, List.length_take]
    omega
  · intro hle
    rw [hbase, List.take_of_length_le hle]

def wStarterA : Starter := ⟨1, .node 1 CONCEPT_NODE "a", none, 0, 2, 0⟩

def wStarterB : Starter := ⟨2, .node 2 CONCEPT_NODE "b", none, 0, 3, 1⟩

def wStarterC : Starter := ⟨3, .node 3 CONCEPT_NODE "c", none, 0, 4, 2⟩

theorem initiate_search_budget_witness :
    ((2 : Nat) < ([wStarterA, wStarterB, wStarterC] : List Starter).length ∧
       (consumedStarters 2 [wStarterA, wStarterB, wStarterC]).length = 2) ∧
    (([wStarterA, wStarterB, wStarterC] : List Starter).length ≤ 5 ∧
       consumedStarters 5 [wStarterA, wStarterB, wStarterC] = [wStarterA, wStarterB, wStarterC]) := by
  constructor
  · exact ⟨by decide, (initiate_search_budget 2 [wStarterA, wStarterB, wStarterC]).2.2.1 (by decide)⟩
  · exact ⟨by decide, (initiate_search_budget 5 [wStarterA, wStarterB, wStarterC]).2.2.2 (by decide)⟩

/-- C4: `clause_match` always returns true, and a repeated call with the
same pair is a no-op: the second call leaves the state exactly as the
first call left it. -/
theorem clause_match_true_and_dedup (rl : List Nat) (ps : Nat) (ph gh : Atom) (s : QState) :
    (clause_match rl ps ph gh s).1 = true ∧
      clause_match rl ps ph gh (clause_match rl ps ph gh s).2 =
        (true, (clause_match rl ps ph gh s).2) := by
  constructor
  · unfold clause_match
    dsimp only
    split
    · rfl
    · rfl
  · unfold clause_match
    dsimp only
    by_cases h : s.prev_compared.contains (ph.uuid, gh.uuid)
    · simp only [h, if_true]
    · simp only [h, if_false]
      have hmem : ((check_if_accept rl ps ph gh s).prev_compared
          ++ [(ph.uuid, gh.uuid)]).contains (ph.uuid, gh.uuid) = true := by
        rw [check_if_accept_prev]
        simp
      simp [hmem]

/-- C3: a candidate whose leaves include a reject-list atom is rejected
before scoring: `check_if_accept` leaves the state untouched. -/
theorem reject_list_enforced (rl : List Nat) (ps : Nat) (ph gh : Atom) (s : QState)
    (rh : Nat) (h1 : rh ∈ rl) (h2 : rh ∈ get_all_nodes gh) :
    check_if_accept rl ps ph gh s = s := by
  have hrej : rejectedBy rl (get_all_nodes gh) = true := by
    unfold rejectedBy
    rw [List.any_eq_true]
    exact ⟨rh, h1, by simpa using h2⟩
  unfold check_if_accept
  simp [hrej]

theorem reject_list_enforced_witness :
    (7 : Nat) ∈ ([7] : List Nat) ∧
      (7 : Nat) ∈ get_all_nodes (.node 7 CONCEPT_NODE "x") ∧
      check_if_accept [7] 3 (.node 9 CONCEPT_NODE "p") (.node 7 CONCEPT_NODE "x")
        initialQState = initialQState :=
  ⟨by decide, by decide,
    reject_list_enforced [7] 3 (.node 9 CONCEPT_NODE "p") (.node 7 CONCEPT_NODE "x")
      initialQState 7 (by decide) (by decide)⟩

/-!
Concrete atoms for the score-tracking example of the spec: with
`pat_size = 5` and pattern leaves `{1..5}`, the four candidates below
score 3, 5, 5 and 2 in that order.
-/

def exNode (i : Nat) : Atom := .node i CONCEPT_NODE ("n" ++ toString i)

def exPat : Atom := .link 50 LIST_LINK
  (.acons (exNode 1) (.acons (exNode 2) (.acons (exNode 3)
    (.acons (exNode 4) (.acons (exNode 5) .anil)))))

def exG3 : Atom := .link 60 LIST_LINK
  (.acons (exNode 1) (.acons (exNode 2) (.acons (exNode 3) (.acons (exNode 4) .anil))))

def exG5a : Atom := .link 61 LIST_LINK
  (.acons (exNode 1) (.acons (exNode 2) (.acons (exNode 3)
    (.acons (exNode 4) (.acons (exNode 5) .anil)))))

def exG5b : Atom := .link 62 LIST_LINK
  (.acons (exNode 5) (.acons (exNode 4) (.acons (exNode 3)
    (.acons (exNode 2) (.acons (exNode 1) .anil)))))

def exG2 : Atom := .link 63 LIST_LINK
  (.acons (exNode 1) (.acons (exNode 2) (.acons (exNode 3) (.acons (exNode 6) .anil))))

/-- C1: for a non-rejected candidate, a score strictly above the current
best replaces the best score and resets the solution set to that
candidate alone; an equal score appends the candidate; a strictly lower
score changes nothing.  Concretely, candidates scoring 3, 5, 5, 2 in
that order leave best score 5 and exactly the two candidates that
scored 5, in encounter order. -/
theorem score_tracking (rl : List Nat) (ps : Nat) (ph gh : Atom) (s : QState)
    (hrej : rejectedBy rl (get_all_nodes gh) = false) :
    (simGT (similarityOf ps ph gh) s.max_similarity = true →
        check_if_accept rl ps ph gh s =
          ⟨some (similarityOf ps ph gh), [gh], s.prev_compared⟩) ∧
    (simEQ (similarityOf ps ph gh) s.max_similarity = true →
        check_if_accept rl ps ph gh s =
          ⟨s.max_similarity, s.solns ++ [gh], s.prev_compared⟩) ∧
    (simGT (similarityOf ps ph gh) s.max_similarity = false →
      simEQ (similarityOf ps ph gh) s.max_similarity = false →
        check_if_accept rl ps ph gh s = s) ∧
    ((check_if_accept [] 5 exPat exG2 (check_if_accept [] 5 exPat exG5b
        (check_if_accept [] 5 exPat exG5a (check_if_accept [] 5 exPat exG3
          initialQState)))).max_similarity = some 5 ∧
      (check_if_accept [] 5 exPat exG2 (check_if_accept [] 5 exPat exG5b
        (check_if_accept [] 5 exPat exG5a (check_if_accept [] 5 exPat exG3
          initialQState)))).solns = [exG5a, exG5b]) := by
  refine ⟨?_, ?_, ?_, rfl, rfl⟩
  · intro hgt
    unfold check_if_accept
    dsimp only
    simp [hrej, hgt]
  · intro heq
    have hgt : simGT (similarityOf ps ph gh) s.max_similarity = false := by
      cases hm : s.max_similarity with
      | none => rw [hm] at heq; exact absurd heq (by simp [simEQ])
      | some m =>
        rw [hm] at heq
        have hx : similarityOf ps ph gh = m := by simpa [simEQ] using heq
        simp [simGT, hx]
    unfold check_if_accept
    dsimp only
    simp [hrej, hgt, heq]
  · intro hgt heq
    unfold check_if_accept
    dsimp only
    simp [hrej, hgt, heq]

theorem score_tracking_witness :
    rejectedBy [] (get_all_nodes exG3) = false ∧
      check_if_accept [] 5 exPat exG3 initialQState =
        ⟨some (similarityOf 5 exPat exG3), [exG3], []⟩ :=
  ⟨rfl, (score_tracking [] 5 exPat exG3 initialQState rfl).1 rfl⟩

/-!
Concrete atoms for the duplicate-candidate consequence: two distinct
pattern atoms with the same leaf set, one candidate scoring the tied
best against both.
-/

def exPh1 : Atom := .link 100 LIST_LINK (.acons (exNode 1) (.acons (exNode 2) .anil))

def exPh2 : Atom := .link 101 LIST_LINK (.acons (exNode 2) (.acons (exNode 1) .anil))

def exGh : Atom := .link 200 LIST_LINK (.acons (exNode 1) (.acons (exNode 2) .anil))

/-- C10: comparison dedup is keyed on the (pattern, candidate) pair, so
one candidate compared against two distinct pattern atoms with tied
best scores enters the solution set twice. -/
theorem duplicate_candidate_in_solutions :
    exPh1.uuid ≠ exPh2.uuid ∧
      ((clause_match [] 2 exPh2 exGh
          (clause_match [] 2 exPh1 exGh initialQState).2).2).solns = [exGh, exGh] ∧
      ((clause_match [] 2 exPh2 exGh
          (clause_match [] 2 exPh1 exGh initialQState).2).2).max_similarity = some 2 :=
  ⟨by decide, rfl, rfl⟩

/-- C9: `extract_variables` fails with a structure error on an empty
outgoing set and on a one-element outgoing set whose element has a
recognized variable-declaration type; scope construction aborts in both
cases with no scope value produced. -/
theorem extract_variables_structure_errors :
    extract_variables .anil =
        .error (.structureError "Expecting a non-empty outgoing set.") ∧
    (∀ d : Atom, isVarDeclType d.atype = true →
        extract_variables (.acons d .anil) =
          .error (.structureError "Expecting an outgoing set size of at least two.")) ∧
    (∀ u t : Nat, mkScope u t .anil =
        .error (.structureError "Expecting a non-empty outgoing set.")) ∧
    (∀ u t : Nat, ∀ d : Atom, isVarDeclType d.atype = true →
        mkScope u t (.acons d .anil) =
          .error (.structureError "Expecting an outgoing set size of at least two.")) := by
  have h2 : ∀ d : Atom, isVarDeclType d.atype = true →
      extract_variables (.acons d .anil) =
        .error (.structureError "Expecting an outgoing set size of at least two.") := by
    intro d hd
    unfold extract_variables
    simp [hd]
  refine ⟨rfl, h2, fun u t => rfl, ?_⟩
  intro u t d hd
  unfold mkScope
  rw [h2 d hd]

theorem extract_variables_structure_errors_witness :
    isVarDeclType (Atom.node 10 VARIABLE_NODE "$x").atype = true ∧
      extract_variables (.acons (.node 10 VARIABLE_NODE "$x") .anil) =
        .error (.structureError "Expecting an outgoing set size of at least two.") ∧
      mkScope 30 SCOPE_LINK (.acons (.node 10 VARIABLE_NODE "$x") .anil) =
        .error (.structureError "Expecting an outgoing set size of at least two.") :=
  ⟨by decide,
    extract_variables_structure_errors.2.1 (.node 10 VARIABLE_NODE "$x") (by decide),
    extract_variables_structure_errors.2.2.2 30 SCOPE_LINK
      (.node 10 VARIABLE_NODE "$x") (by decide)⟩

/-!
Lemmas connecting the computed leaf lists to the mathematical leaf sets,
for the similarity-formula claim.
-/

theorem insertSorted_mem (u v : Nat) (l : List Nat) :
    v ∈ insertSorted u l ↔ v = u ∨ v ∈ l := by
  induction l with
  | nil => simp [insertSorted]
  | cons w rest ih =>
    unfold insertSorted
    by_cases h1 : u < w
    · simp [h1]
    · by_cases h2 : u = w
      · subst h2; simp [h1]
      · simp [h1, h2, ih]; tauto

theorem insertSorted_sorted (u : Nat) (l : List Nat) (h : l.Pairwise (· < ·)) :
    (insertSorted u l).Pairwise (· < ·) := by
  induction l with
  | nil => simp [insertSorted]
  | cons w rest ih =>
    rw [List.pairwise_cons] at h
    obtain ⟨hw, hrest⟩ := h
    unfold insertSorted
    by_cases h1 : u < w
    · rw [if_pos h1, List.pairwise_cons]
      refine ⟨?_, List.pairwise_cons.mpr ⟨hw, hrest⟩⟩
      intro x hx
      rcases List.mem_cons.mp hx with hx | hx
      · omega
      · exact Nat.lt_trans h1 (hw x hx)
    · by_cases h2 : u = w
      · rw [if_neg h1, if_pos h2, List.pairwise_cons]
        exact ⟨hw, hrest⟩
      · rw [if_neg h1, if_neg h2, List.pairwise_cons]
        refine ⟨?_, ih hrest⟩
        intro x hx
        rcases (insertSorted_mem u x rest).mp hx with hx | hx
        · omega
        · exact hw x hx

theorem sortedDedup_sorted (l : List Nat) : (sortedDedup l).Pairwise (· < ·) := by
  induction l with
  | nil => simp [sortedDedup]
  | cons w rest ih => exact insertSorted_sorted w _ ih

theorem sortedDedup_mem (l : List Nat) (v : Nat) : v ∈ sortedDedup l ↔ v ∈ l := by
  induction l with
  | nil => simp [sortedDedup]
  | cons w rest ih =>
    unfold sortedDedup at ih ⊢
    rw [List.foldr_cons, insertSorted_mem, ih]
    simp

theorem leavesA_finset (a : Atom) : ∀ u, u ∈ leavesA a ↔ u ∈ leafFinsetA a := by
  refine @Atom.rec (fun a => ∀ u, u ∈ leavesA a ↔ u ∈ leafFinsetA a)
    (fun l => ∀ u, u ∈ leavesL l ↔ u ∈ leafFinsetL l) ?_ ?_ ?_ ?_ a
  · intro u t n v
    simp [leavesA, leafFinsetA]
  · intro u t out ih v
    simpa [leavesA, leafFinsetA] using ih v
  · intro v
    simp [leavesL, leafFinsetL]
  · intro h t ih1 ih2 v
    simp [leavesL, leafFinsetL, ih1 v, ih2 v]

theorem get_all_nodes_toFinset (a : Atom) : (get_all_nodes a).toFinset = leafFinsetA a := by
  ext u
  rw [List.mem_toFinset]
  unfold get_all_nodes
  rw [sortedDedup_mem]
  exact leavesA_finset a u

theorem get_all_nodes_nodup (a : Atom) : (get_all_nodes a).Nodup :=
  (sortedDedup_sorted _).imp (fun h => Nat.ne_of_lt h)

theorem get_all_nodes_length (a : Atom) :
    (get_all_nodes a).length = (leafFinsetA a).card := by
  rw [← get_all_nodes_toFinset a, List.toFinset_card_of_nodup (get_all_nodes_nodup a)]

theorem common_card (ph gh : Atom) :
    ((get_all_nodes ph).filter (fun u => (get_all_nodes gh).contains u)).length
      = (leafFinsetA ph ∩ leafFinsetA gh).card := by
  have hnodup : ((get_all_nodes ph).filter
      (fun u => (get_all_nodes gh).contains u)).Nodup :=
    (get_all_nodes_nodup ph).filter _
  rw [← List.toFinset_card_of_nodup hnodup]
  congr 1
  ext u
  rw [List.mem_toFinset, List.mem_filter, Finset.mem_inter,
    ← get_all_nodes_toFinset ph, ← get_all_nodes_toFinset gh,
    List.mem_toFinset, List.mem_toFinset]
  constructor
  · rintro ⟨h1, h2⟩
    exact ⟨h1, by simpa using h2⟩
  · rintro ⟨h1, h2⟩
    exact ⟨h1, by simpa using h2⟩

theorem sizeDiff_eq (a b : Nat) (ha : a < 2 ^ 31) (hb : b < 2 ^ 31) :
    (sizeDiff a b : Int) = (((a : Int) - (b : Int)).natAbs : Int) := by
  unfold sizeDiff toInt32 wrapSub64
  split <;> omega

/-- An atom for the similarity-wrap counterexample: a single leaf. -/
def cxAtom : Atom := .node 1 CONCEPT_NODE "x"

/-- C2 counterexample: at `pat_size = 2^32` against a one-leaf
candidate, the code's `std::abs((int)(pat_size - gn.size()))` truncates
`2^32 - 1` to `-1` and yields size diff 1, so the computed score is 0,
not the `1 - (2^32 - 1)` the claimed absolute difference gives: the
claim fails without a bound on the counts. -/
theorem similarity_formula_counterexample :
    similarityOf (2 ^ 32) cxAtom cxAtom = 0 ∧
      similaritySpec (2 ^ 32) cxAtom cxAtom = 1 - (2 ^ 32 - 1) ∧
      similarityOf (2 ^ 32) cxAtom cxAtom ≠ similaritySpec (2 ^ 32) cxAtom cxAtom := by
  decide

/-- C2 (amended): the similarity score equals the cardinality of the
intersection of the two leaf sets minus the absolute difference between
the total pattern leaf count and the candidate's leaf count, whenever
both counts are below 2^31 (beyond which the source's `size_t`-to-`int`
narrowing wraps, as the counterexample shows). -/
theorem similarity_formula (ps : Nat) (ph gh : Atom)
    (hps : ps < 2 ^ 31) (hg : (leafFinsetA gh).card < 2 ^ 31) :
    similarityOf ps ph gh = similaritySpec ps ph gh := by
  unfold similarityOf similaritySpec
  dsimp only
  rw [common_card, get_all_nodes_length gh, sizeDiff_eq ps _ hps hg]

theorem similarity_formula_witness :
    (5 : Nat) < 2 ^ 31 ∧ (leafFinsetA exG2).card < 2 ^ 31 ∧
      similarityOf 5 exPat exG2 = similaritySpec 5 exPat exG2 :=
  ⟨by norm_num, by decide, similarity_formula 5 exPat exG2 (by norm_num) (by decide)⟩

/-!
Ranking lemmas: adjacent dedup after the uuid sort leaves one starter
per uuid, and the width/depth sort orders the survivors.
-/

theorem dedupFrom_subset (l : List Starter) :
    ∀ s : Starter, ∀ x ∈ dedupFrom s l, x ∈ l := by
  induction l with
  | nil => intro s x hx; simp [dedupFrom] at hx
  | cons t rest ih =>
    intro s x hx
    unfold dedupFrom at hx
    by_cases he : t.suuid = s.suuid
    · rw [if_pos he] at hx
      exact List.mem_cons_of_mem t (ih s x hx)
    · rw [if_neg he] at hx
      rcases List.mem_cons.mp hx with hx | hx
      · exact hx ▸ List.mem_cons_self t rest
      · exact List.mem_cons_of_mem t (ih t x hx)

theorem dedupFrom_uuid_mem (l : List Starter) :
    ∀ (s : Starter) (u : Nat), u ∈ l.map Starter.suuid →
      u = s.suuid ∨ u ∈ (dedupFrom s l).map Starter.suuid := by
  induction l with
  | nil => intro s u hu; simp at hu
  | cons t rest ih =>
    intro s u hu
    rw [List.map_cons, List.mem_cons] at hu
    unfold dedupFrom
    by_cases he : t.suuid = s.suuid
    · rw [if_pos he]
      rcases hu with hu | hu
      · exact Or.inl (hu.trans he)
      · exact ih s u hu
    · rw [if_neg he, List.map_cons]
      rcases hu with hu | hu
      · exact Or.inr (hu ▸ List.mem_cons_self t.suuid _)
      · rcases ih t u hu with hu' | hu'
        · exact Or.inr (hu' ▸ List.mem_cons_self t.suuid _)
        · exact Or.inr (List.mem_cons_of_mem _ hu')

theorem dedupFrom_sorted (l : List Starter) :
    ∀ s : Starter, l.Pairwise uuidLe → (∀ t ∈ l, s.suuid ≤ t.suuid) →
      (∀ x ∈ dedupFrom s l, s.suuid < x.suuid) ∧
        ((dedupFrom s l).map Starter.suuid).Pairwise (· < ·) := by
  induction l with
  | nil => intro s _ _; exact ⟨by intro x hx; simp [dedupFrom] at hx, by simp [dedupFrom]⟩
  | cons t rest ih =>
    intro s hp hs
    rw [List.pairwise_cons] at hp
    obtain ⟨ht, hrest⟩ := hp
    unfold dedupFrom
    by_cases he : t.suuid = s.suuid
    · rw [if_pos he]
      exact ih s hrest (fun x hx => he ▸ ht x hx)
    · rw [if_neg he]
      have hst : s.suuid < t.suuid :=
        Nat.lt_of_le_of_ne (hs t (List.mem_cons_self t rest)) (fun h => he h.symm)
      have ihre := ih t hrest (fun x hx => ht x hx)
      constructor
      · intro x hx
        rcases List.mem_cons.mp hx with hx | hx
        · exact hx ▸ hst
        · exact Nat.lt_trans hst (ihre.1 x hx)
      · rw [List.map_cons, List.pairwise_cons]
        refine ⟨?_, ihre.2⟩
        intro u hu
        rw [List.mem_map] at hu
        obtain ⟨x, hx, hxu⟩ := hu
        exact hxu ▸ ihre.1 x hx

theorem dedupAdj_subset (l : List Starter) : ∀ x ∈ dedupAdj l, x ∈ l := by
  cases l with
  | nil => intro x hx; simp [dedupAdj] at hx
  | cons s rest =>
    intro x hx
    unfold dedupAdj at hx
    rcases List.mem_cons.mp hx with hx | hx
    · exact hx ▸ List.mem_cons_self s rest
    · exact List.mem_cons_of_mem s (dedupFrom_subset rest s x hx)

theorem dedupAdj_uuid_mem (l : List Starter) (u : Nat) :
    u ∈ (dedupAdj l).map Starter.suuid ↔ u ∈ l.map Starter.suuid := by
  cases l with
  | nil => simp [dedupAdj]
  | cons s rest =>
    constructor
    · intro hu
      unfold dedupAdj at hu
      rw [List.map_cons, List.mem_cons] at hu
      rcases hu with hu | hu
      · exact hu ▸ List.mem_cons_self s.suuid _
      · obtain ⟨x, hx, hxu⟩ := List.mem_map.mp hu
        exact hxu ▸ List.mem_map_of_mem Starter.suuid
          (List.mem_cons_of_mem s (dedupFrom_subset rest s x hx))
    · intro hu
      rw [List.map_cons, List.mem_cons] at hu
      unfold dedupAdj
      rw [List.map_cons, List.mem_cons]
      rcases hu with hu | hu
      · exact Or.inl hu
      · rcases dedupFrom_uuid_mem rest s u hu with hu' | hu'
        · exact Or.inl hu'
        · exact Or.inr hu'

theorem dedupAdj_uuid_nodup (l : List Starter) (h : l.Pairwise uuidLe) :
    ((dedupAdj l).map Starter.suuid).Nodup := by
  cases l with
  | nil => simp [dedupAdj]
  | cons s rest =>
    rw [List.pairwise_cons] at h
    obtain ⟨hs, hrest⟩ := h
    have hd := dedupFrom_sorted rest s hrest (fun t ht => hs t ht)
    unfold dedupAdj
    rw [List.map_cons]
    have hpw : (s.suuid :: (dedupFrom s rest).map Starter.suuid).Pairwise (· < ·) := by
      rw [List.pairwise_cons]
      refine ⟨?_, hd.2⟩
      intro u hu
      obtain ⟨x, hx, hxu⟩ := List.mem_map.mp hu
      exact hxu ▸ hd.1 x hx
    exact hpw.imp (fun h => Nat.ne_of_lt h)

/-- C6: after the ranking stage the starter list holds exactly one
starter per distinct atom identity — uuids are duplicate-free and
exactly those discovered, each survivor drawn from the discovered
list — ordered ascending by incoming-set width with ties broken by
descending depth; hence the first consumed starter has minimal width
and, among equal widths, maximal depth. -/
theorem starter_ranking (l : List Starter) :
    ((rankStarters l).map Starter.suuid).Nodup ∧
    (∀ u, u ∈ (rankStarters l).map Starter.suuid ↔ u ∈ l.map Starter.suuid) ∧
    (∀ x ∈ rankStarters l, x ∈ l) ∧
    (rankStarters l).Pairwise wdLe ∧
    (∀ s rest, rankStarters l = s :: rest → ∀ t ∈ rankStarters l,
        s.width < t.width ∨ (s.width = t.width ∧ t.depth ≤ s.depth)) := by
  have hsorted1 : (List.insertionSort uuidLe l).Pairwise uuidLe :=
    List.sorted_insertionSort uuidLe l
  have hperm1 : (List.insertionSort uuidLe l).Perm l := List.perm_insertionSort uuidLe l
  have hperm2 : (List.insertionSort wdLe (dedupAdj (List.insertionSort uuidLe l))).Perm
      (dedupAdj (List.insertionSort uuidLe l)) := List.perm_insertionSort _ _
  have hrank : rankStarters l
      = List.insertionSort wdLe (dedupAdj (List.insertionSort uuidLe l)) := rfl
  refine ⟨?_, ?_, ?_, ?_, ?_⟩
  · rw [hrank]
    exact ((hperm2.map Starter.suuid).nodup_iff).mpr (dedupAdj_uuid_nodup _ hsorted1)
  · intro u
    rw [hrank]
    have h1 := (hperm2.map Starter.suuid).mem_iff (a := u)
    rw [h1, dedupAdj_uuid_mem]
    exact (hperm1.map Starter.suuid).mem_iff
  · intro x hx
    rw [hrank] at hx
    exact hperm1.mem_iff.mp (dedupAdj_subset _ x (hperm2.mem_iff.mp hx))
  · rw [hrank]
    exact List.sorted_insertionSort wdLe _
  · intro s rest hsr t ht
    have hpw : (rankStarters l).Pairwise wdLe := List.sorted_insertionSort wdLe _
    rw [hsr] at hpw ht
    rcases List.mem_cons.mp ht with ht | ht
    · subst ht
      omega
    · have hw := (List.pairwise_cons.mp hpw).1 t ht
      unfold wdLe at hw
      exact hw

def rkA : Starter := ⟨1, .node 1 CONCEPT_NODE "a", none, 0, 5, 0⟩

def rkB : Starter := ⟨2, .node 2 CONCEPT_NODE "b", none, 0, 3, 1⟩

def rkA2 : Starter := ⟨1, .node 1 CONCEPT_NODE "a", none, 1, 5, 2⟩

theorem starter_ranking_witness :
    ((rankStarters [rkA, rkB, rkA2]).map Starter.suuid).Nodup ∧
      (rkB.width < rkB.width ∨ (rkB.width = rkB.width ∧ rkB.depth ≤ rkB.depth)) ∧
      (rkB.width < rkA.width ∨ (rkB.width = rkA.width ∧ rkA.depth ≤ rkB.depth)) := by
  have h := starter_ranking [rkA, rkB, rkA2]
  refine ⟨h.1, ?_, ?_⟩
  · exact h.2.2.2.2 rkB [rkA] rfl rkB (List.mem_cons_self _ _)
  · exact h.2.2.2.2 rkB [rkA] rfl rkA (List.mem_cons_of_mem _ (List.mem_cons_self _ _))

/-!
Traversal lemmas for starter discovery.
-/

/-- A starter the traversal may record: a node that is neither a
variable nor an instance (name containing "@"). -/
def fsGood (st : Starter) : Prop :=
  ∃ u ty nm, st.handle = Atom.node u ty nm ∧ ty ≠ VARIABLE_NODE
    ∧ nm.data.contains '@' = false

theorem leafStep_spec (w : Nat → Nat) (u ty : Nat) (nm : String) (d ci : Nat)
    (t : Option Atom) (s : FSState) :
    (leafStep w u ty nm d ci t s).pat_size = s.pat_size + 1 ∧
    (leafStep w u ty nm d ci t s).var_size
      = s.var_size + (if ty = VARIABLE_NODE then 1 else 0) ∧
    (∀ st ∈ (leafStep w u ty nm d ci t s).rtn, st ∈ s.rtn ∨ fsGood st) := by
  unfold leafStep
  dsimp only
  split_ifs with h1 h2
  · exact absurd h2 h1.1
  · refine ⟨rfl, by simp, ?_⟩
    intro st hst
    rcases List.mem_append.mp hst with h | h
    · exact Or.inl h
    · right
      have hh : st = ⟨u, .node u ty nm, t, ci, w u, d⟩ := by simpa using h
      subst hh
      exact ⟨u, ty, nm, rfl, h1.1, by simpa using h1.2⟩
  · exact ⟨rfl, rfl, fun st hst => Or.inl hst⟩
  · exact ⟨rfl, by simp, fun st hst => Or.inl hst⟩

def fsMotiveA (w : Nat → Nat) (a : Atom) : Prop :=
  (∀ d ci t s, (find_starters w a d ci t s).pat_size = s.pat_size + nodeCountA a
    ∧ (find_starters w a d ci t s).var_size = s.var_size + varCountA a
    ∧ ∀ st ∈ (find_starters w a d ci t s).rtn, st ∈ s.rtn ∨ fsGood st) ∧
  (∀ d ci (p : Atom) s, (fsChild w a d ci p s).pat_size = s.pat_size + nodeCountQ a
    ∧ (fsChild w a d ci p s).var_size = s.var_size + varCountQ a
    ∧ ∀ st ∈ (fsChild w a d ci p s).rtn, st ∈ s.rtn ∨ fsGood st)

def fsMotiveL (w : Nat → Nat) (l : AtomList) : Prop :=
  (∀ d ci (p : Atom) s, (fsChildren w l d ci p s).pat_size = s.pat_size + nodeCountL l
    ∧ (fsChildren w l d ci p s).var_size = s.var_size + varCountL l
    ∧ ∀ st ∈ (fsChildren w l d ci p s).rtn, st ∈ s.rtn ∨ fsGood st) ∧
  (match l with
   | .anil => True
   | .acons h _ => fsMotiveA w h)

theorem fs_behaviour (w : Nat → Nat) : ∀ a : Atom, fsMotiveA w a := by
  intro a
  refine @Atom.rec (fsMotiveA w) (fsMotiveL w) ?_ ?_ ?_ ?_ a
  · intro u ty nm
    constructor
    · intro d ci t s
      simp only [find_starters, nodeCountA, varCountA]
      exact leafStep_spec w u ty nm d ci t s
    · intro d ci p s
      simp only [fsChild, nodeCountQ, varCountQ]
      exact leafStep_spec w u ty nm d ci (some p) s
  · intro u ty out ihl
    constructor
    · intro d ci t s
      simp only [find_starters, nodeCountA, varCountA]
      exact ihl.1 (d + 1) ci (.link u ty out) s
    · intro d ci p s
      cases out with
      | anil =>
        simp only [fsChild, nodeCountQ, varCountQ]
        exact ⟨by omega, by omega, fun st hst => Or.inl hst⟩
      | acons c cs =>
        simp only [fsChild, nodeCountQ, varCountQ]
        by_cases hq : ty = QUOTE_LINK
        · simp only [if_pos hq]
          exact ihl.2.1 d ci (some p) s
        · simp only [if_neg hq]
          exact ihl.1 (d + 1) ci (.link u ty (.acons c cs)) s
  · constructor
    · intro d ci p s
      simp only [fsChildren, nodeCountL, varCountL]
      exact ⟨by omega, by omega, fun st hst => Or.inl hst⟩
    · trivial
  · intro h t iha ihl
    constructor
    · intro d ci p s
      simp only [fsChildren, nodeCountL, varCountL]
      have hh := iha.2 d ci p s
      have ht := ihl.1 d ci p (fsChild w h d ci p s)
      refine ⟨by rw [ht.1, hh.1]; omega, by rw [ht.2.1, hh.2.1]; omega, ?_⟩
      intro st hst
      rcases ht.2.2 st hst with hst' | hst'
      · exact hh.2.2 st hst'
      · exact Or.inr hst'
    · exact iha

def allVarPat : Atom := .link 300 LIST_LINK
  (.acons (.node 301 VARIABLE_NODE "$a") (.acons (.node 302 VARIABLE_NODE "$b") .anil))

def mixPat : Atom := .link 310 EVALUATION_LINK
  (.acons (.node 311 CONCEPT_NODE "c") (.acons (.node 312 VARIABLE_NODE "$v") .anil))

def mixStarter : Starter := ⟨311, .node 311 CONCEPT_NODE "c", some mixPat, 0, 0, 1⟩

/-- C7: `find_starters` never records a variable node or an
instance-marked node (name containing "@") as a starter, while still
counting every leaf toward the pattern node count and every variable
leaf toward the variable count; an all-variable pattern hence yields
zero starters with nonzero counters. -/
theorem find_starters_exclusion (w : Nat → Nat) (a : Atom) (d ci : Nat)
    (t : Option Atom) (s : FSState) :
    ((find_starters w a d ci t s).pat_size = s.pat_size + nodeCountA a) ∧
    ((find_starters w a d ci t s).var_size = s.var_size + varCountA a) ∧
    (∀ st ∈ (find_starters w a d ci t s).rtn, st ∈ s.rtn ∨
      ∃ u ty nm, st.handle = Atom.node u ty nm ∧ ty ≠ VARIABLE_NODE
        ∧ nm.data.contains '@' = false) ∧
    ((find_starters w allVarPat 0 0 none ⟨0, 0, []⟩).rtn = []
      ∧ (find_starters w allVarPat 0 0 none ⟨0, 0, []⟩).pat_size = 2
      ∧ (find_starters w allVarPat 0 0 none ⟨0, 0, []⟩).var_size = 2) := by
  have h := (fs_behaviour w a).1 d ci t s
  exact ⟨h.1, h.2.1, h.2.2, rfl, rfl, rfl⟩

theorem find_starters_exclusion_witness :
    mixStarter ∈ (find_starters (fun _ => 0) mixPat 0 0 none ⟨0, 0, []⟩).rtn ∧
      (mixStarter ∈ (⟨0, 0, []⟩ : FSState).rtn ∨
        ∃ u ty nm, mixStarter.handle = Atom.node u ty nm ∧ ty ≠ VARIABLE_NODE
          ∧ nm.data.contains '@' = false) := by
  constructor
  · exact List.mem_cons_self _ _
  · exact (find_starters_exclusion (fun _ => 0) mixPat 0 0 none ⟨0, 0, []⟩).2.2.1
      mixStarter (List.mem_cons_self _ _)

/-!
Concrete scopes for the alpha-equivalence claim: `∀x. P(x)` versus
`∀y. P(y)` versus `∀x. Q(x)`, with explicit single-variable
declarations.
-/

def vx : Atom := .node 10 VARIABLE_NODE "$x"

def vy : Atom := .node 11 VARIABLE_NODE "$y"

def predP : Atom := .node 21 PREDICATE_NODE "P"

def predQ : Atom := .node 23 PREDICATE_NODE "Q"

def evPx : Atom := .link 20 EVALUATION_LINK (.acons predP (.acons vx .anil))

def evPy : Atom := .link 22 EVALUATION_LINK (.acons predP (.acons vy .anil))

def evQx : Atom := .link 24 EVALUATION_LINK (.acons predQ (.acons vx .anil))

def osetA : AtomList := .acons vx (.acons evPx .anil)

def osetB : AtomList := .acons vy (.acons evPy .anil)

def osetC : AtomList := .acons vx (.acons evQx .anil)

/-- C8: `is_equal` holds exactly up to consistent renaming of bound
variables — a scope binding x over P(x) equals one binding y over P(y)
but not one over Q(x) — and returns false (not an error) on distinct
scopes whenever the types differ, the scoped-term counts differ, or the
Variable Lists are not equal. -/
theorem scope_alpha_equivalence :
    (alphaEqOSets 30 SCOPE_LINK osetA 31 SCOPE_LINK osetB = true) ∧
    (alphaEqOSets 30 SCOPE_LINK osetA 32 SCOPE_LINK osetC = false) ∧
    (∀ s o : Scope, s.suuid ≠ o.suuid →
      (o.ty ≠ s.ty → scope_is_equal s o = false) ∧
      (nScopedTerms s ≠ nScopedTerms o → scope_is_equal s o = false) ∧
      (varsEqual s.varlist o.varlist = false → scope_is_equal s o = false)) := by
  refine ⟨rfl, rfl, ?_⟩
  intro s o huuid
  unfold scope_is_equal
  dsimp only
  rw [if_neg huuid]
  refine ⟨?_, ?_, ?_⟩
  · intro hty
    rw [if_pos hty]
  · intro hn
    by_cases hty : o.ty ≠ s.ty
    · rw [if_pos hty]
    · rw [if_neg hty, if_pos hn]
  · intro hv
    by_cases hty : o.ty ≠ s.ty
    · rw [if_pos hty]
    · rw [if_neg hty]
      by_cases hn : nScopedTerms s ≠ nScopedTerms o
      · rw [if_pos hn]
      · rw [if_neg hn, if_pos (by simp [hv])]

def scW1 : Scope := ⟨40, SCOPE_LINK, osetA, some vx, ⟨[vx], [none]⟩, evPx⟩

def scW2 : Scope := ⟨41, LAMBDA_LINK, osetB, some vy, ⟨[vy], [none]⟩, evPy⟩

theorem scope_alpha_equivalence_witness :
    scW1.suuid ≠ scW2.suuid ∧ scW2.ty ≠ scW1.ty ∧
      scope_is_equal scW1 scW2 = false :=
  ⟨by decide, by decide,
    (scope_alpha_equivalence.2.2 scW1 scW2 (by decide)).1 (by decide)⟩
